import Mathlib

/-!
Shallow embedding of the git-in-go object store, pack codec, index, and
pkt-line framing, with theorems checking the specification's claims.

Go byte slices are modelled as `List Nat` (each element a byte value),
Go `int` values as `Nat` (all quantities involved are non-negative sizes,
offsets and counts; byte truncations `byte(x)` are made explicit with
`% 256`).  Go functions returning `(T, error)` are modelled with `GoRes`,
which also records the two abnormal outcomes a Go program can exhibit:
a runtime panic (out-of-range indexing or slicing) and nontermination
(cut off by fuel in the one recursive procedure that needs it).
-/

namespace GitGo

/-- Outcome of a Go computation: normal result, returned `error`, runtime
panic (e.g. index out of range), or fuel exhaustion of a recursion that
would not terminate. -/
inductive GoRes (α : Type) where
  | ok (a : α)
  | err
  | panic
  | spin
  deriving DecidableEq, Repr

/-! ## Variable-length size encoding (packfile.go / smart_http_protocol.go)

`readVariableSizeEncoding(data, i, shift)` reads `b := data[i]` (a panic when
`i` is out of range), masks the low `shift` bits, and then, while the current
byte has bit 7 set, appends the low 7 bits of each following byte at ever
more significant positions.  The loop is embedded as `rvseLoop` over the
suffix `data.drop (i+1)`; its bounds check `i+bytesRead >= len(data)`
corresponds exactly to the suffix being exhausted. -/

def rvseLoop : List Nat → Nat → Nat → Nat → Nat → GoRes (Nat × Nat)
  | [], b, decodedSize, _, bytesRead =>
      if b &&& 0x80 ≠ 0 then .err else .ok (decodedSize, bytesRead)
  | b2 :: tl, b, decodedSize, shift, bytesRead =>
      if b &&& 0x80 ≠ 0 then
        rvseLoop tl b2 (decodedSize ||| ((b2 &&& 0x7F) <<< shift)) (shift + 7) (bytesRead + 1)
      else .ok (decodedSize, bytesRead)

/-- `readVariableSizeEncoding` from the source (later bytes more
significant).  Returns the decoded size and the index just past the
encoding.  The decoder's mask is built as `byte((1 << shift) - 1)`, hence
the `% 256`. -/
def readVariableSizeEncoding (data : List Nat) (i shift : Nat) : GoRes (Nat × Nat) :=
  match data.get? i with
  | none => .panic
  | some b =>
    match rvseLoop (data.drop (i + 1)) b (b &&& (((1 <<< shift) - 1) % 256)) shift 1 with
    | .ok (v, bytesRead) => .ok (v, i + bytesRead)
    | .err => .err
    | .panic => .panic
    | .spin => .spin

/-- Loop of `encodeVariableLengthSize`: emits 7-bit groups of the remaining
size, least significant first, setting bit 7 on every byte that is followed
by another one. -/
def encodeVariableLengthSizeLoop (size : Nat) : List Nat :=
  if h : size = 0 then []
  else
    (if size >>> 7 > 0 then (size &&& 0x7F) ||| 0x80 else size &&& 0x7F)
      :: encodeVariableLengthSizeLoop (size >>> 7)
termination_by size
decreasing_by
  simp only [Nat.shiftRight_eq_div_pow]
  exact Nat.div_lt_self (Nat.pos_of_ne_zero h) (by norm_num)

/-- `encodeVariableLengthSize` from the source: low `shift` bits in the
first byte (converted to a byte, hence `% 256`), then 7-bit groups, with
bit 7 of each byte flagging a following byte. -/
def encodeVariableLengthSize (size shift : Nat) : List Nat :=
  (if size >>> shift > 0 then ((size &&& ((1 <<< shift) - 1)) % 256) ||| 0x80
   else (size &&& ((1 <<< shift) - 1)) % 256)
    :: encodeVariableLengthSizeLoop (size >>> shift)

/-- `readPackfileObjectHeader`: bits 6-4 of the first byte are the object
type, and the size is read with `readVariableSizeEncoding` at `shift = 4`. -/
def readPackfileObjectHeader (packfile : List Nat) (i : Nat) : GoRes (Nat × Nat × Nat) :=
  match packfile.get? i with
  | none => .panic
  | some b =>
    match readVariableSizeEncoding packfile i 4 with
    | .ok (packfileObjectLength, i2) => .ok ((b >>> 4) &&& 0x07, packfileObjectLength, i2)
    | .err => .err
    | .panic => .panic
    | .spin => .spin

/-- `encodePackfileObjectHeader`: variable-length size with `shift = 4`,
object type or-ed into bits 6-4 of the first byte (`byte(t) << 4`, truncated
to a byte). -/
def encodePackfileObjectHeader (packfileObjType size : Nat) : GoRes (List Nat) :=
  match encodeVariableLengthSize size 4 with
  | [] => .err
  | e0 :: etail => .ok ((e0 ||| (((packfileObjType % 256) <<< 4) % 256)) :: etail)

/-! ### Bit-arithmetic helpers -/

lemma and_mask_127 (a : Nat) : a &&& 127 = a % 128 := by
  simpa using Nat.and_pow_two_sub_one_eq_mod a 7

lemma and_mask_15 (a : Nat) : a &&& 15 = a % 16 := by
  simpa using Nat.and_pow_two_sub_one_eq_mod a 4

lemma testBit_15 (j : Nat) : Nat.testBit 15 j = decide (j < 4) := by
  simpa using Nat.testBit_two_pow_sub_one 4 j

lemma testBit_7 (j : Nat) : Nat.testBit 7 j = decide (j < 3) := by
  simpa using Nat.testBit_two_pow_sub_one 3 j

lemma testBit_127 (j : Nat) : Nat.testBit 127 j = decide (j < 7) := by
  simpa using Nat.testBit_two_pow_sub_one 7 j

lemma testBit_128 (j : Nat) : Nat.testBit 128 j = decide (j = 7) := by
  have h := Nat.testBit_two_pow (n := 7) (m := j)
  norm_num at h
  simp [h, eq_comm]

lemma and_128_of_lt {a : Nat} (h : a < 128) : a &&& 128 = 0 := by
  apply Nat.eq_of_testBit_eq
  intro i
  rw [Nat.testBit_and, testBit_128]
  rcases eq_or_ne i 7 with rfl | hne
  · simp [Nat.testBit_lt_two_pow (x := a) (i := 7) (by norm_num; omega)]
  · simp [hne]

lemma or_128_and_128 (a : Nat) : (a ||| 128) &&& 128 = 128 := by
  apply Nat.eq_of_testBit_eq
  intro i
  rw [Nat.testBit_and, Nat.testBit_or, testBit_128]
  rcases eq_or_ne i 7 with rfl | hne
  · simp
  · simp [hne]

lemma or_128_and_127 (a : Nat) : (a ||| 128) &&& 127 = a &&& 127 := by
  apply Nat.eq_of_testBit_eq
  intro i
  rw [Nat.testBit_and, Nat.testBit_and, Nat.testBit_or, testBit_127, testBit_128]
  rcases eq_or_ne i 7 with rfl | hne
  · simp
  · simp [hne]

lemma and_127_idem (a : Nat) : (a &&& 127) &&& 127 = a &&& 127 := by
  simp [and_mask_127, Nat.mod_mod]

/-- `testBit` of a number below `2^k` vanishes from bit `k` on. -/
lemma testBit_high_of_lt {t k i : Nat} (ht : t < 2 ^ k) (hi : k ≤ i) :
    Nat.testBit t i = false := by
  have h2 : (2 : Nat) ^ k ≤ 2 ^ i := Nat.pow_le_pow_right (by norm_num) hi
  exact Nat.testBit_lt_two_pow (by omega)

/-- Splitting the low 7 bits off `n` and shifting both parts recombines to
`n <<< shift`. -/
lemma shiftLeft_split7 (n shift : Nat) :
    ((n &&& 127) <<< shift) ||| ((n >>> 7) <<< (shift + 7)) = n <<< shift := by
  apply Nat.eq_of_testBit_eq
  intro i
  rw [Nat.testBit_or, Nat.testBit_shiftLeft, Nat.testBit_shiftLeft, Nat.testBit_shiftLeft,
    Nat.testBit_and, Nat.testBit_shiftRight, testBit_127]
  rcases Nat.lt_or_ge i shift with hi | hi
  · have d1 : decide (i ≥ shift) = false := decide_eq_false (by omega)
    have d2 : decide (i ≥ shift + 7) = false := decide_eq_false (by omega)
    rw [d1, d2]
    simp
  · rcases Nat.lt_or_ge i (shift + 7) with hi2 | hi2
    · have d1 : decide (i ≥ shift) = true := decide_eq_true (by omega)
      have d2 : decide (i ≥ shift + 7) = false := decide_eq_false (by omega)
      have d3 : decide (i - shift < 7) = true := decide_eq_true (by omega)
      rw [d1, d2, d3]
      simp
    · have d1 : decide (i ≥ shift) = true := decide_eq_true (by omega)
      have d2 : decide (i ≥ shift + 7) = true := decide_eq_true (by omega)
      have d3 : decide (i - shift < 7) = false := decide_eq_false (by omega)
      have h3 : 7 + (i - (shift + 7)) = i - shift := by omega
      rw [d1, d2, d3, h3]
      simp

/-- Recombining the low 4 bits with the rest. -/
lemma and_15_or_shift (x : Nat) : (x &&& 15) ||| ((x >>> 4) <<< 4) = x := by
  apply Nat.eq_of_testBit_eq
  intro i
  rw [Nat.testBit_or, Nat.testBit_and, Nat.testBit_shiftLeft, Nat.testBit_shiftRight, testBit_15]
  rcases Nat.lt_or_ge i 4 with hi | hi
  · have d1 : decide (i < 4) = true := decide_eq_true hi
    have d2 : decide (i ≥ 4) = false := decide_eq_false (by omega)
    rw [d1, d2]
    simp
  · have d1 : decide (i < 4) = false := decide_eq_false (by omega)
    have d2 : decide (i ≥ 4) = true := decide_eq_true hi
    have h3 : 4 + (i - 4) = i := by omega
    rw [d1, d2, h3]
    simp

/-- Decomposition of a packfile object-header first byte
`((s &&& 15) ||| c) ||| (t <<< 4)` with `t < 8` the type bits and
`c ∈ {0, 128}` the continuation flag. -/
lemma headerByte_decomp (s t c : Nat) (ht : t < 8) (hc : c = 0 ∨ c = 128) :
    ((((s &&& 15) ||| c) ||| (t <<< 4)) >>> 4) &&& 7 = t ∧
    (((s &&& 15) ||| c) ||| (t <<< 4)) &&& 15 = s &&& 15 ∧
    (((s &&& 15) ||| c) ||| (t <<< 4)) &&& 128 = c := by
  refine ⟨?_, ?_, ?_⟩
  · apply Nat.eq_of_testBit_eq
    intro i
    rw [Nat.testBit_and, Nat.testBit_shiftRight, Nat.testBit_or, Nat.testBit_or,
      Nat.testBit_and, Nat.testBit_shiftLeft, testBit_15, testBit_7]
    have d4 : decide (4 + i < 4) = false := decide_eq_false (by omega)
    have d5 : decide (4 + i ≥ 4) = true := decide_eq_true (by omega)
    have h6 : 4 + i - 4 = i := by omega
    rcases Nat.lt_or_ge i 3 with hi | hi
    · have hcbit : Nat.testBit c (4 + i) = false := by
        rcases hc with rfl | rfl
        · simp
        · rw [testBit_128]
          exact decide_eq_false (by omega)
      have d7 : decide (i < 3) = true := decide_eq_true hi
      rw [d4, d5, h6, hcbit, d7]
      simp
    · have htb : Nat.testBit t i = false :=
        testBit_high_of_lt (k := 3) (by norm_num; omega) hi
      have d7 : decide (i < 3) = false := decide_eq_false (by omega)
      rw [d7, htb]
      simp
  · apply Nat.eq_of_testBit_eq
    intro i
    rw [Nat.testBit_and, Nat.testBit_and, Nat.testBit_or, Nat.testBit_or, Nat.testBit_and,
      Nat.testBit_shiftLeft, testBit_15]
    rcases Nat.lt_or_ge i 4 with hi | hi
    · have hcbit : Nat.testBit c i = false := by
        rcases hc with rfl | rfl
        · simp
        · rw [testBit_128]
          exact decide_eq_false (by omega)
      have d1 : decide (i < 4) = true := decide_eq_true hi
      have d2 : decide (i ≥ 4) = false := decide_eq_false (by omega)
      rw [hcbit, d1, d2]
      simp
    · have d1 : decide (i < 4) = false := decide_eq_false (by omega)
      rw [d1]
      simp
  · apply Nat.eq_of_testBit_eq
    intro i
    rw [Nat.testBit_and, Nat.testBit_or, Nat.testBit_or, Nat.testBit_and,
      Nat.testBit_shiftLeft, testBit_15, testBit_128]
    rcases eq_or_ne i 7 with rfl | hne
    · have htb : Nat.testBit t 3 = false := testBit_high_of_lt (k := 3) (by norm_num; omega) le_rfl
      have d1 : decide ((7 : Nat) < 4) = false := decide_eq_false (by omega)
      have d2 : decide ((7 : Nat) ≥ 4) = true := decide_eq_true (by omega)
      have h3 : (7 : Nat) - 4 = 3 := by norm_num
      have d4 : decide ((7 : Nat) = 7) = true := decide_eq_true rfl
      rw [d1, d2, h3, htb, d4]
      simp
    · have hcbit : Nat.testBit c i = false := by
        rcases hc with rfl | rfl
        · simp
        · rw [testBit_128]
          exact decide_eq_false hne
      have d3 : decide (i = 7) = false := decide_eq_false hne
      rw [hcbit, d3]
      simp

/-! ### Size-varint round trip -/

/-- The decoder loop, fed the bytes produced by the encoder loop for `n`
(with the previous byte's continuation bit set iff `n > 0`), accumulates
exactly `n <<< shift` on top of `acc` and consumes the whole encoding. -/
lemma encodeLoop_zero : encodeVariableLengthSizeLoop 0 = [] := by
  rw [encodeVariableLengthSizeLoop]
  simp

lemma rvseLoop_encodeLoop :
    ∀ n rest b acc shift cnt, (b &&& 0x80 ≠ 0 ↔ 0 < n) →
      rvseLoop (encodeVariableLengthSizeLoop n ++ rest) b acc shift cnt
        = .ok (acc ||| (n <<< shift), cnt + (encodeVariableLengthSizeLoop n).length) := by
  intro n
  induction n using Nat.strong_induction_on with
  | _ n ih =>
    intro rest b acc shift cnt hb
    by_cases h0 : n = 0
    · subst h0
      have hb0 : ¬(b &&& 0x80 ≠ 0) := fun h => absurd (hb.mp h) (by omega)
      rw [encodeLoop_zero, List.nil_append]
      cases rest with
      | nil => simp only [rvseLoop]; simp [hb0]
      | cons x xs => simp only [rvseLoop]; simp [hb0]
    · have hlt : n >>> 7 < n := by
        rw [Nat.shiftRight_eq_div_pow]
        exact Nat.div_lt_self (by omega) (by norm_num)
      have hbt : b &&& 0x80 ≠ 0 := hb.mpr (by omega)
      rw [encodeVariableLengthSizeLoop]
      rw [dif_neg h0]
      rw [List.cons_append]
      simp only [rvseLoop]
      rw [if_pos hbt]
      by_cases h7 : n >>> 7 = 0
      · have h7d : n / 128 = 0 := by
          rw [Nat.shiftRight_eq_div_pow] at h7
          norm_num at h7
          exact h7
        have hn128 : n < 128 := by omega
        have hc : ¬((n >>> 7 : Nat) > 0) := by omega
        rw [if_neg hc]
        simp only [h7, encodeLoop_zero, List.nil_append]
        have hcont0 : ¬((n &&& 127) &&& 0x80 ≠ 0) := by
          have := and_128_of_lt (a := n &&& 127) (by rw [and_mask_127]; omega)
          simp [this]
        have hn : n &&& 127 = n := by rw [and_mask_127]; omega
        cases rest with
        | nil =>
            simp only [rvseLoop]
            rw [if_neg hcont0, and_127_idem, hn]
            simp
        | cons x xs =>
            simp only [rvseLoop]
            rw [if_neg hcont0, and_127_idem, hn]
            simp
      · have hc : (n >>> 7 : Nat) > 0 := by omega
        rw [if_pos hc]
        have hb2 : ((n &&& 127) ||| 128) &&& 0x80 ≠ 0 := by
          rw [or_128_and_128]; omega
        have := ih (n >>> 7) hlt rest ((n &&& 127) ||| 128)
          (acc ||| ((((n &&& 127) ||| 128) &&& 0x7F) <<< shift)) (shift + 7) (cnt + 1)
          (by constructor
              · intro _; omega
              · intro _; exact hb2)
        rw [this]
        rw [or_128_and_127, and_127_idem]
        rw [Nat.or_assoc, shiftLeft_split7]
        simp only [List.length_cons]
        have : cnt + 1 + (encodeVariableLengthSizeLoop (n >>> 7)).length
            = cnt + ((encodeVariableLengthSizeLoop (n >>> 7)).length + 1) := by omega
        rw [this]

/-- Full round trip of the variable-length size encoding at `shift = 4`,
with the type bits or-ed into the first byte and arbitrary trailing bytes. -/
lemma readHeader_encodeHeader (t s : Nat) (rest : List Nat) (ht : t < 8) :
    ∃ hdr, encodePackfileObjectHeader t s = .ok hdr ∧
      readPackfileObjectHeader (hdr ++ rest) 0 = .ok (t, s, hdr.length) := by
  have ht16 : t % 256 = t := Nat.mod_eq_of_lt (by omega)
  have htb : ((t % 256) <<< 4) % 256 = t <<< 4 := by
    rw [ht16, Nat.shiftLeft_eq]
    exact Nat.mod_eq_of_lt (by omega)
  have h15 : ((1 <<< 4) - 1 : Nat) = 15 := by decide
  have hfb : (s &&& ((1 <<< 4) - 1)) % 256 = s &&& 15 := by
    rw [h15]
    exact Nat.mod_eq_of_lt (by rw [and_mask_15]; omega)
  set c : Nat := if s >>> 4 > 0 then 128 else 0 with hcdef
  have hc : c = 0 ∨ c = 128 := by
    rw [hcdef]; split <;> simp
  have hfirst :
      encodeVariableLengthSize s 4
        = ((s &&& 15) ||| c) :: encodeVariableLengthSizeLoop (s >>> 4) := by
    rw [encodeVariableLengthSize, hcdef]
    by_cases hsz : s >>> 4 > 0
    · rw [if_pos hsz, if_pos hsz, hfb]
    · rw [if_neg hsz, if_neg hsz, hfb]
      simp
  obtain ⟨hd, hs, hco⟩ := headerByte_decomp s t c ht hc
  refine ⟨(((s &&& 15) ||| c) ||| (t <<< 4)) :: encodeVariableLengthSizeLoop (s >>> 4), ?_, ?_⟩
  · rw [encodePackfileObjectHeader, hfirst]
    rw [htb]
  · rw [List.cons_append, readPackfileObjectHeader]
    simp only [List.get?_cons_zero]
    rw [readVariableSizeEncoding]
    simp only [List.get?_cons_zero, List.drop_succ_cons, List.drop_zero]
    have hmask : (((1 <<< 4) - 1) % 256 : Nat) = 15 := by decide
    rw [hmask]
    have hloop := rvseLoop_encodeLoop (s >>> 4) rest ((((s &&& 15) ||| c) ||| (t <<< 4)))
      ((((s &&& 15) ||| c) ||| (t <<< 4)) &&& 15) 4 1
      (by rw [hco, hcdef]
          by_cases hsz : s >>> 4 > 0
          · rw [if_pos hsz]
            exact ⟨fun _ => hsz, fun _ => by omega⟩
          · rw [if_neg hsz]
            exact ⟨fun h => absurd rfl h, fun h => absurd h hsz⟩)
    rw [hloop, hs, and_15_or_shift, hd]
    simp [List.length_cons]
    omega

/-- C6: The pack per-object header codec round-trips: for every object type
in {1,2,3,4,6,7} and every size ≥ 0, decoding the header bytes produced by
the writer's encoder (first byte: bit 7 = more, bits 6-4 = type, bits 3-0 =
low 4 bits of size; continuation bytes each contribute the next 7 bits of
size with later bytes more significant) yields exactly that type and that
size. -/
theorem C6_packfile_header_roundtrip (t s : Nat) (rest : List Nat)
    (ht : t ∈ [1, 2, 3, 4, 6, 7]) :
    ∃ hdr, encodePackfileObjectHeader t s = .ok hdr ∧
      readPackfileObjectHeader (hdr ++ rest) 0 = .ok (t, s, hdr.length) := by
  have ht8 : t < 8 := by
    fin_cases ht <;> omega
  exact readHeader_encodeHeader t s rest ht8

/-- Witness for C6 at type 3 (blob), size 300. -/
theorem C6_packfile_header_roundtrip_witness :
    (3 ∈ [1, 2, 3, 4, 6, 7]) ∧
      ∃ hdr, encodePackfileObjectHeader 3 300 = .ok hdr ∧
        readPackfileObjectHeader (hdr ++ [7, 7]) 0 = .ok (3, 300, hdr.length) :=
  ⟨by decide, C6_packfile_header_roundtrip 3 300 [7, 7] (by decide)⟩

/-! ## Delta application (`applyDelta`)

The delta stream starts with two size varints (7-bit stride), followed by
COPY/ADD commands.  The command loop is embedded with a fuel argument equal
to the length of the instruction stream: every Go iteration consumes at
least the command byte, so the fuel never runs out on any input (`.spin` is
unreachable) and the function stays structurally recursive and computable. -/

/-- The argument-byte reader inside the COPY branch of `applyDelta`: for
`numFlags` values of `j` starting at `j0`, if bit `baseMask << j` of `cmd`
is set, consume the next instruction byte (a Go panic when the promised
byte is missing) and or it into the accumulator at position `8*j`.  The
offset uses `baseMask = 1` (bits 3-0), the copy size `baseMask = 16`
(bits 6-4).  Returns the value and the number of bytes consumed. -/
def readFlaggedBytes (cmd baseMask : Nat) :
    Nat → Nat → Nat → Nat → List Nat → GoRes (Nat × Nat)
  | 0, _, acc, used, _ => .ok (acc, used)
  | numFlags + 1, j, acc, used, l =>
    if cmd &&& (baseMask <<< j) ≠ 0 then
      match l with
      | [] => .panic
      | b :: tl =>
          readFlaggedBytes cmd baseMask numFlags (j + 1) (acc ||| (b <<< (8 * j))) (used + 1) tl
    else readFlaggedBytes cmd baseMask numFlags (j + 1) acc used l

/-- The command loop of `applyDelta` over the instruction suffix.  Bit 7 of
the command byte selects COPY (`cmdType == 128`) or ADD (`cmdType == 0`);
the final `else` arm mirrors the source's unreachable "expected 1 (COPY) or
0 (ADD)" error branch. -/
def applyDeltaLoop (base : List Nat) : Nat → List Nat → List Nat → GoRes (List Nat)
  | _, [], targetObjContent => .ok targetObjContent
  | 0, _ :: _, _ => .spin
  | fuel + 1, cmd :: rest, targetObjContent =>
    if cmd &&& 0x80 = 128 then
      match readFlaggedBytes cmd 1 4 0 0 0 rest with
      | .ok (baseOffset, used1) =>
        match readFlaggedBytes cmd 16 3 0 0 0 (rest.drop used1) with
        | .ok (ncb, used2) =>
          if baseOffset + (if ncb = 0 then 0x10000 else ncb) > base.length then .err
          else
            applyDeltaLoop base fuel (rest.drop (used1 + used2))
              (targetObjContent ++ ((base.drop baseOffset).take (if ncb = 0 then 0x10000 else ncb)))
        | .err => .err
        | .panic => .panic
        | .spin => .spin
      | .err => .err
      | .panic => .panic
      | .spin => .spin
    else if cmd &&& 0x80 = 0 then
      if cmd &&& 0x7F > rest.length then .err
      else
        applyDeltaLoop base fuel (rest.drop (cmd &&& 0x7F)) (targetObjContent ++ rest.take (cmd &&& 0x7F))
    else .err

/-- `applyDelta` from the source: read source and target sizes, require the
source size to equal the base length, run the command loop, and require the
produced length to equal the target size. -/
def applyDelta (deltaData baseObjContent : List Nat) : GoRes (List Nat) :=
  match readVariableSizeEncoding deltaData 0 7 with
  | .ok (sourceSize, i1) =>
    match readVariableSizeEncoding deltaData i1 7 with
    | .ok (targetSize, i2) =>
      if sourceSize ≠ baseObjContent.length then .err
      else
        match applyDeltaLoop baseObjContent (deltaData.drop i2).length (deltaData.drop i2) [] with
        | .ok targetObjContent =>
            if targetObjContent.length ≠ targetSize then .err else .ok targetObjContent
        | .err => .err
        | .panic => .panic
        | .spin => .spin
    | .err => .err
    | .panic => .panic
    | .spin => .spin
  | .err => .err
  | .panic => .panic
  | .spin => .spin

/-- A varint whose first byte has no continuation bit stops immediately. -/
lemma rvseLoop_nocont (tl : List Nat) (b acc shift cnt : Nat) (hb : b &&& 0x80 = 0) :
    rvseLoop tl b acc shift cnt = .ok (acc, cnt) := by
  cases tl with
  | nil => simp only [rvseLoop]; rw [if_neg (by simp [hb])]
  | cons x xs => simp only [rvseLoop]; rw [if_neg (by simp [hb])]

lemma rvse_cons_nocont (b : Nat) (tl : List Nat) (hb : b &&& 0x80 = 0) :
    readVariableSizeEncoding (b :: tl) 0 7 = .ok (b &&& 127, 1) := by
  rw [readVariableSizeEncoding]
  have hm : (((1 <<< 7) - 1) % 256 : Nat) = 127 := by decide
  simp only [List.get?_cons_zero, List.drop_succ_cons, List.drop_zero, hm,
    rvseLoop_nocont tl b (b &&& 127) 7 1 hb]

lemma rvse_cons_cons_nocont (a b : Nat) (tl : List Nat) (hb : b &&& 0x80 = 0) :
    readVariableSizeEncoding (a :: b :: tl) 1 7 = .ok (b &&& 127, 2) := by
  rw [readVariableSizeEncoding]
  have hm : (((1 <<< 7) - 1) % 256 : Nat) = 127 := by decide
  simp only [List.get?_cons_succ, List.get?_cons_zero, List.drop_succ_cons, List.drop_zero, hm,
    rvseLoop_nocont tl b (b &&& 127) 7 1 hb]

/-- C1: `applyDelta` succeeds only when the emitted bytes have exactly the
advertised target size and the source-size varint at the head of the delta
equals the base length; on base "abcdefghij", COPY offset=0 size=5 followed
by ADD "XYZWV" yields "abcdeXYZWV", and a (single-byte) advertised target
size other than 10 yields an error. -/
theorem C1_applyDelta_size_contract :
    (∀ D B r, applyDelta D B = .ok r →
      ∃ s i1 t i2, readVariableSizeEncoding D 0 7 = .ok (s, i1) ∧
        readVariableSizeEncoding D i1 7 = .ok (t, i2) ∧
        s = B.length ∧ r.length = t) ∧
    applyDelta [10, 10, 144, 5, 5, 88, 89, 90, 87, 86]
        [97, 98, 99, 100, 101, 102, 103, 104, 105, 106]
      = .ok [97, 98, 99, 100, 101, 88, 89, 90, 87, 86] ∧
    (∀ t, t < 128 → t ≠ 10 →
      applyDelta [10, t, 144, 5, 5, 88, 89, 90, 87, 86]
        [97, 98, 99, 100, 101, 102, 103, 104, 105, 106] = .err) := by
  refine ⟨?_, by decide, ?_⟩
  · intro D B r h
    unfold applyDelta at h
    split at h
    case _ s i1 heq1 =>
      split at h
      case _ t i2 heq2 =>
        split at h
        · simp at h
        case _ hsrc =>
          split at h
          case _ target heqloop =>
            split at h
            · simp at h
            case _ hlen =>
              have hr : target = r := by
                cases h
                rfl
              subst hr
              refine ⟨s, i1, t, i2, heq1, heq2, by omega, by omega⟩
          · simp at h
          · simp at h
          · simp at h
      · simp at h
      · simp at h
      · simp at h
    · simp at h
    · simp at h
    · simp at h
  · intro t ht hne
    have hb : t &&& 0x80 = 0 := and_128_of_lt ht
    have h1 := rvse_cons_nocont 10 (t :: [144, 5, 5, 88, 89, 90, 87, 86]) (by decide)
    have h2 := rvse_cons_cons_nocont 10 t [144, 5, 5, 88, 89, 90, 87, 86] hb
    have ht127 : t &&& 127 = t := by rw [and_mask_127]; omega
    have h10 : (10 : Nat) &&& 127 = 10 := by decide
    have hloop : applyDeltaLoop [97, 98, 99, 100, 101, 102, 103, 104, 105, 106] 8
        [144, 5, 5, 88, 89, 90, 87, 86] [] = .ok [97, 98, 99, 100, 101, 88, 89, 90, 87, 86] := by
      decide
    rw [ht127] at h2
    rw [h10] at h1
    simp only [applyDelta, h1, h2, List.drop_succ_cons, List.drop_zero, List.length_cons,
      List.length_nil]
    rw [if_neg (by simp)]
    simp only [hloop]
    rw [if_pos (by simp; omega)]

/-- Witness for C1: the general size contract applied at the concrete
example, the concrete example itself, and the wrong-target-size error at
target size 9. -/
theorem C1_applyDelta_size_contract_witness :
    (∃ s i1 t i2,
      readVariableSizeEncoding [10, 10, 144, 5, 5, 88, 89, 90, 87, 86] 0 7 = .ok (s, i1) ∧
      readVariableSizeEncoding [10, 10, 144, 5, 5, 88, 89, 90, 87, 86] i1 7 = .ok (t, i2) ∧
      s = ([97, 98, 99, 100, 101, 102, 103, 104, 105, 106] : List Nat).length ∧
      ([97, 98, 99, 100, 101, 88, 89, 90, 87, 86] : List Nat).length = t) ∧
    applyDelta [10, 9, 144, 5, 5, 88, 89, 90, 87, 86]
      [97, 98, 99, 100, 101, 102, 103, 104, 105, 106] = .err :=
  ⟨C1_applyDelta_size_contract.1 _ _ _ (by decide),
   C1_applyDelta_size_contract.2.2 9 (by decide) (by decide)⟩

/-- C3 (evaluation at the failing input): `applyDelta` silently accepts a
delta stream whose instruction sequence starts with the reserved command
byte 0, treating it as a zero-length ADD: with base "abcdefghij" and
instructions `[0, COPY offset=0 size=10]` it returns the base unchanged
instead of an error. -/
theorem C3_applyDelta_accepts_reserved_command_zero :
    applyDelta [10, 10, 0, 144, 10] [97, 98, 99, 100, 101, 102, 103, 104, 105, 106]
      = .ok [97, 98, 99, 100, 101, 102, 103, 104, 105, 106] := by
  decide

/-- C4 (evaluation at the failing inputs): `applyDelta` panics (Go index
out of range), rather than returning an error, when a COPY command's
promised offset byte is missing from the stream, and when the stream is too
short to contain the two leading size varints. -/
theorem C4_applyDelta_truncated_stream_panics :
    applyDelta [5, 5, 145] [97, 98, 99, 100, 101] = .panic ∧
    applyDelta [] [] = .panic := by
  decide

/-! ## Object types (objects.go) -/

/-- `ObjectType` from objects.go (`Blob = 0`, `Tree = 1`, `Commit = 2`). -/
inductive ObjectType where
  | Blob
  | Tree
  | Commit
  deriving DecidableEq, Repr

/-- `ObjectType.toString` from the source. -/
def ObjectType.toString : ObjectType → String
  | .Blob => "blob"
  | .Tree => "tree"
  | .Commit => "commit"

/-- `objTypeFromString` / `ObjTypeFromString` from the source: only
"blob", "tree" and "commit" are valid; anything else (including "tag") is
an error. -/
def ObjTypeFromString (objType : String) : GoRes ObjectType :=
  if objType = ObjectType.Blob.toString then .ok .Blob
  else if objType = ObjectType.Tree.toString then .ok .Tree
  else if objType = ObjectType.Commit.toString then .ok .Commit
  else .err

/-- `PackfileObjectType.toString` from packfile.go; packfile object types
are plain ints (1 commit, 2 tree, 3 blob, 4 tag, 6 ofs-delta, 7 ref-delta). -/
def packfileObjTypeToString (t : Nat) : String :=
  if t = 1 then "commit"
  else if t = 2 then "tree"
  else if t = 3 then "blob"
  else if t = 4 then "tag"
  else if t = 6 then "ofs_delta"
  else if t = 7 then "ref_delta"
  else "unknown"

/-! ## Offset encoding (ofs-delta) -/

/-- Loop of `readVariableOffsetEncoding` (later bytes less significant):
while the current byte has bit 7 set, `x = ((x+1) << 7) | (next & 0x7f)`.
As with `rvseLoop`, the Go bounds check corresponds to exhausting the
suffix. -/
def rvoeLoop : List Nat → Nat → Nat → Nat → GoRes (Nat × Nat)
  | [], b, decodedOffset, bytesRead =>
      if b &&& 0x80 ≠ 0 then .err else .ok (decodedOffset, bytesRead)
  | b2 :: tl, b, decodedOffset, bytesRead =>
      if b &&& 0x80 ≠ 0 then
        rvoeLoop tl b2 (((decodedOffset + 1) <<< 7) ||| (b2 &&& 0x7F)) (bytesRead + 1)
      else .ok (decodedOffset, bytesRead)

/-- `readVariableOffsetEncoding` from smart_http_protocol.go. -/
def readVariableOffsetEncoding (data : List Nat) (i : Nat) : GoRes (Nat × Nat) :=
  match data.get? i with
  | none => .panic
  | some b =>
    match rvoeLoop (data.drop (i + 1)) b (b &&& 0x7F) 1 with
    | .ok (v, bytesRead) => .ok (v, i + bytesRead)
    | .err => .err
    | .panic => .panic
    | .spin => .spin

/-- Modelled from the spec: "variable offset encoding (bit7 = more; on each
continuation `x = ((x+1) << 7) | (next & 0x7f)`; later bytes less
significant)" — the value of an encoding `b0 :: bs` is the fold of the
continuation rule over the later bytes, starting from `b0 & 0x7f`. -/
def ofsDecodeSpec (b0 : Nat) (bs : List Nat) : Nat :=
  bs.foldl (fun x next => ((x + 1) <<< 7) ||| (next &&& 0x7F)) (b0 &&& 0x7F)

/-- Well-formed offset encoding: every byte except the last has the
continuation bit set, and the last does not. -/
def wfOfsEnc : List Nat → Bool
  | [] => true
  | [b] => b &&& 0x80 == 0
  | b :: b2 :: tl => (b &&& 0x80 != 0) && wfOfsEnc (b2 :: tl)

lemma rvoeLoop_decode :
    ∀ bs b acc cnt rest, wfOfsEnc (b :: bs) = true →
      rvoeLoop (bs ++ rest) b acc cnt
        = .ok (bs.foldl (fun x next => ((x + 1) <<< 7) ||| (next &&& 0x7F)) acc, cnt + bs.length) := by
  intro bs
  induction bs with
  | nil =>
    intro b acc cnt rest hwf
    have hb : b &&& 0x80 = 0 := by
      simp [wfOfsEnc] at hwf
      exact hwf
    cases rest with
    | nil => simp only [List.nil_append, rvoeLoop]; rw [if_neg (by simp [hb])]; simp
    | cons x xs => simp only [List.nil_append, rvoeLoop]; rw [if_neg (by simp [hb])]; simp
  | cons b2 tl ih =>
    intro b acc cnt rest hwf
    have hparts : (b &&& 0x80 ≠ 0) ∧ wfOfsEnc (b2 :: tl) = true := by
      simp [wfOfsEnc] at hwf
      exact hwf
    rw [List.cons_append]
    simp only [rvoeLoop]
    rw [if_pos hparts.1]
    rw [ih b2 (((acc + 1) <<< 7) ||| (b2 &&& 0x7F)) (cnt + 1) rest hparts.2]
    simp only [List.foldl_cons, List.length_cons]
    have : cnt + 1 + tl.length = cnt + (tl.length + 1) := by omega
    rw [this]

/-- `readVariableOffsetEncoding` on a well-formed encoding embedded at any
position decodes to the spec's fold and stops right after it. -/
lemma rvoe_decodes_spec (pre : List Nat) (b0 : Nat) (bs rest : List Nat)
    (hwf : wfOfsEnc (b0 :: bs) = true) :
    readVariableOffsetEncoding (pre ++ (b0 :: bs) ++ rest) pre.length
      = .ok (ofsDecodeSpec b0 bs, pre.length + (bs.length + 1)) := by
  rw [readVariableOffsetEncoding]
  have hget : (pre ++ (b0 :: bs) ++ rest).get? pre.length = some b0 := by
    rw [List.append_assoc, List.get?_append_right (Nat.le_refl pre.length)]
    simp
  have hdrop : (pre ++ (b0 :: bs) ++ rest).drop (pre.length + 1) = bs ++ rest := by
    have hassoc : pre ++ (b0 :: bs) ++ rest = (pre ++ [b0]) ++ (bs ++ rest) := by
      simp
    rw [hassoc]
    have hlen : (pre ++ [b0]).length = pre.length + 1 := by simp
    rw [← hlen, List.drop_left]
  simp only [hget, hdrop, rvoeLoop_decode bs b0 (b0 &&& 0x7F) 1 rest hwf]
  rw [ofsDecodeSpec]
  have : 1 + bs.length = bs.length + 1 := by omega
  rw [this]

/-! ## Object frame and store -/

/-- ASCII names of the object kinds, as byte lists. -/
def ObjectType.nameBytes : ObjectType → List Nat
  | .Blob => [98, 108, 111, 98]
  | .Tree => [116, 114, 101, 101]
  | .Commit => [99, 111, 109, 109, 105, 116]

/-- Decimal ASCII digits of `n` (`fmt %d`); the fuel `n+1` always suffices
since the value shrinks by a factor of ten per step, keeping the function
structurally recursive and computable. -/
def natDecimalDigitsAux : Nat → Nat → List Nat
  | 0, _ => []
  | fuel + 1, n => if n < 10 then [48 + n] else natDecimalDigitsAux fuel (n / 10) ++ [48 + n % 10]

def natDecimalDigits (n : Nat) : List Nat := natDecimalDigitsAux (n + 1) n

/-- The canonical object frame `"<kind> <size>\x00<payload>"` built by
`createObjectFile` (the `fmt.Sprintf("%s %d\x00", ...)` header followed by
the content). -/
def objectFileBytes (objType : ObjectType) (contentBytes : List Nat) : List Nat :=
  objType.nameBytes ++ [32] ++ natDecimalDigits contentBytes.length ++ [0] ++ contentBytes

/-- The on-disk object store for the pack reader, modelled as a map from
hex hash to (kind, content); the byte-level `.git/objects/aa/...` layer is
modelled separately for the object engine (see `createObjectFile` /
`parseObjectData` below). -/
abbrev ObjStore := List (String × ObjectType × List Nat)

/-- `CreateObjectFile` as used by the pack reader: the address is the
SHA-1 (abstract parameter `sha1`) of the canonical frame, and the object
becomes readable under that address. -/
def CreateObjectFile (sha1 : List Nat → String) (objType : ObjectType)
    (contentBytes : List Nat) (st : ObjStore) : String × ObjStore :=
  let objHash := sha1 (objectFileBytes objType contentBytes)
  (objHash, (objHash, objType, contentBytes) :: st)

/-- `ReadObjectFile` as used by the pack reader: look the hash up in the
store; a missing object is the "failed to open object file" error. -/
def ReadObjectFile (objHash : String) (st : ObjStore) : GoRes (ObjectType × Nat × List Nat) :=
  match st.find? (fun e => e.1 == objHash) with
  | some (_, t, c) => .ok (t, c.length, c)
  | none => .err

/-! ## Ofs-delta resolution (smart_http_protocol.go) -/

/-- `decompressPackfileObject`: run the zlib inflater (abstract parameter
`inflate`, returning the decompressed bytes and the count of compressed
bytes read) on the suffix at `i` and require the advertised length. -/
def decompressPackfileObject (inflate : List Nat → GoRes (List Nat × Nat))
    (data : List Nat) (i packfileObjectLength : Nat) : GoRes (List Nat × Nat) :=
  match inflate (data.drop i) with
  | .ok (decompressedObjData, compressedBytesRead) =>
      if decompressedObjData.length ≠ packfileObjectLength then .err
      else .ok (decompressedObjData, i + compressedBytesRead)
  | .err => .err
  | .panic => .panic
  | .spin => .spin

/-- `applyOfsDeltaPackfileObject` from smart_http_protocol.go: decode the
negative relative offset, inflate the delta, resolve the base object at
`deltaObjStartPos - baseObjOffset` (recursively when the base is itself an
ofs-delta — the `fuel` bounds that recursion, which Go does not), apply
the delta and store the result.  Returns the new object's hash, the
position after the delta data, and the updated store.  The source's
`baseObjPos` is a Go `int`; the sign check is made explicit over `Int`. -/
def applyOfsDeltaPackfileObject (fuel : Nat) (inflate : List Nat → GoRes (List Nat × Nat))
    (sha1 : List Nat → String) (packfile : List Nat)
    (i deltaObjStartPos packfileObjectLength : Nat) (st : ObjStore) :
    GoRes (String × Nat × ObjStore) :=
  match fuel with
  | 0 => .spin
  | fuel + 1 =>
    match readVariableOffsetEncoding packfile i with
    | .ok (baseObjOffset, i1) =>
      match decompressPackfileObject inflate packfile i1 packfileObjectLength with
      | .ok (deltaData, i2) =>
        if (deltaObjStartPos : Int) - (baseObjOffset : Int) < 0 ∨
            (deltaObjStartPos : Int) - (baseObjOffset : Int) ≥ (packfile.length : Int) then .err
        else
          match readPackfileObjectHeader packfile (deltaObjStartPos - baseObjOffset) with
          | .ok (packfileObjectType, basePackfileObjectLength, j) =>
            match ((if packfileObjectType = 6 then
                     match applyOfsDeltaPackfileObject fuel inflate sha1 packfile j
                         (deltaObjStartPos - baseObjOffset) basePackfileObjectLength st with
                     | .ok (baseObjHash, _, st2) =>
                       match ReadObjectFile baseObjHash st2 with
                       | .ok (targetObjType, _, baseObjContent) =>
                           .ok (targetObjType, baseObjContent, st2)
                       | .err => .err
                       | .panic => .panic
                       | .spin => .spin
                     | .err => .err
                     | .panic => .panic
                     | .spin => .spin
                   else if packfileObjectType = 7 then .err
                   else
                     match ObjTypeFromString (packfileObjTypeToString packfileObjectType) with
                     | .ok targetObjType =>
                       match decompressPackfileObject inflate packfile j basePackfileObjectLength with
                       | .ok (baseObjContent, _) => .ok (targetObjType, baseObjContent, st)
                       | .err => .err
                       | .panic => .panic
                       | .spin => .spin
                     | .err => .err
                     | .panic => .panic
                     | .spin => .spin) : GoRes (ObjectType × List Nat × ObjStore)) with
            | .ok (targetObjType, baseObjContent, st3) =>
              match applyDelta deltaData baseObjContent with
              | .ok targetObjContent =>
                  .ok ((CreateObjectFile sha1 targetObjType targetObjContent st3).1, i2,
                    (CreateObjectFile sha1 targetObjType targetObjContent st3).2)
              | .err => .err
              | .panic => .panic
              | .spin => .spin
            | .err => .err
            | .panic => .panic
            | .spin => .spin
          | .err => .err
          | .panic => .panic
          | .spin => .spin
      | .err => .err
      | .panic => .panic
      | .spin => .spin
    | .err => .err
    | .panic => .panic
    | .spin => .spin

/-- C2: the pack reader decodes an ofs-delta base offset with the
continuation rule `x = ((x+1) << 7) | (next & 0x7f)` (later bytes less
significant), and resolves the base object at the pack position equal to
the ofs-delta object's own start offset minus the decoded offset: whenever
`applyOfsDeltaPackfileObject` succeeds, the offset it decoded satisfies the
rule and the base object header it read sits at
`deltaObjStartPos - baseObjOffset`. -/
theorem C2_ofs_delta_base_resolution :
    (∀ pre b0 bs rest, wfOfsEnc (b0 :: bs) = true →
      readVariableOffsetEncoding (pre ++ (b0 :: bs) ++ rest) pre.length
        = .ok (ofsDecodeSpec b0 bs, pre.length + (bs.length + 1))) ∧
    (∀ fuel inflate sha1 packfile i deltaObjStartPos packfileObjectLength st out,
      applyOfsDeltaPackfileObject fuel inflate sha1 packfile i deltaObjStartPos
          packfileObjectLength st = .ok out →
      ∃ off i1, readVariableOffsetEncoding packfile i = .ok (off, i1) ∧
        off ≤ deltaObjStartPos ∧ deltaObjStartPos - off < packfile.length ∧
        ∃ bt bl j,
          readPackfileObjectHeader packfile (deltaObjStartPos - off) = .ok (bt, bl, j)) := by
  refine ⟨fun pre b0 bs rest hwf => rvoe_decodes_spec pre b0 bs rest hwf, ?_⟩
  intro fuel inflate sha1 packfile i start len st out h
  match fuel with
  | 0 => simp [applyOfsDeltaPackfileObject] at h
  | fuel + 1 =>
    rw [applyOfsDeltaPackfileObject] at h
    split at h
    case _ off i1 heq1 =>
      split at h
      case _ delta i2 heq2 =>
        split at h
        · simp at h
        case _ hpos =>
          split at h
          case _ bt bl j heq3 =>
            push_neg at hpos
            refine ⟨off, i1, heq1, by omega, by omega, bt, bl, j, heq3⟩
          · simp at h
          · simp at h
          · simp at h
      · simp at h
      · simp at h
      · simp at h
    · simp at h
    · simp at h
    · simp at h

/-- Witness for C2: a two-byte offset encoding `[129, 5]` placed after a
two-byte prefix decodes to `((1+1) << 7) | 5`, and a concrete 12-byte pack
in which an ofs-delta at start 5 with encoded offset 5 resolves its base at
position 0 (a blob header). -/
theorem C2_ofs_delta_base_resolution_witness :
    readVariableOffsetEncoding ([0, 0] ++ ([129, 5] ++ [9]))
        ([0, 0] : List Nat).length
      = .ok (ofsDecodeSpec 129 [5], ([0, 0] : List Nat).length + (([5] : List Nat).length + 1)) ∧
    (∃ off i1,
      readVariableOffsetEncoding [51, 3, 97, 98, 99, 100, 5, 4, 3, 3, 144, 3] 6 = .ok (off, i1) ∧
      off ≤ 5 ∧ 5 - off < ([51, 3, 97, 98, 99, 100, 5, 4, 3, 3, 144, 3] : List Nat).length ∧
      ∃ bt bl j,
        readPackfileObjectHeader [51, 3, 97, 98, 99, 100, 5, 4, 3, 3, 144, 3] (5 - off)
          = .ok (bt, bl, j)) :=
  ⟨C2_ofs_delta_base_resolution.1 [0, 0] 129 [5] [9] (by decide),
   C2_ofs_delta_base_resolution.2 1
     (fun l => match l with
       | [] => .err
       | b :: rest => .ok (rest.take b, b + 1))
     (fun _ => "h")
     [51, 3, 97, 98, 99, 100, 5, 4, 3, 3, 144, 3] 6 5 4 []
     ("h", 12, [("h", ObjectType.Blob, [97, 98, 99])]) rfl⟩

/-! ## Object engine: frame parsing (objects.go `readObjectFile` / `createObjectFile`) -/

/-- Digit-run parser underlying the `strconv.Atoi` model: consumes decimal
digits, failing on any non-digit. -/
def decDigitsVal : List Nat → Nat → GoRes Nat
  | [], acc => .ok acc
  | b :: rest, acc =>
      if 48 ≤ b ∧ b ≤ 57 then decDigitsVal rest (acc * 10 + (b - 48)) else .err

/-- `strconv.Atoi` on a byte string: optional sign, then one or more
decimal digits; anything else is an error.  (Go's int64 overflow error is
not modelled; the sizes involved are small.) -/
def atoiGoBytes (s : List Nat) : GoRes Int :=
  match s with
  | [] => .err
  | b :: rest =>
    if b = 43 then
      match rest, decDigitsVal rest 0 with
      | [], _ => .err
      | _, .ok v => .ok (v : Int)
      | _, _ => .err
    else if b = 45 then
      match rest, decDigitsVal rest 0 with
      | [], _ => .err
      | _, .ok v => .ok (-(v : Int))
      | _, _ => .err
    else
      match decDigitsVal s 0 with
      | .ok v => .ok (v : Int)
      | _ => .err

/-- `strings.Split` on a single separator byte. -/
def splitBytes (sep : Nat) : List Nat → List (List Nat)
  | [] => [[]]
  | b :: rest =>
    match splitBytes sep rest with
    | [] => [[]]
    | g :: gs => if b = sep then [] :: g :: gs else (b :: g) :: gs

/-- Byte-level `objTypeFromString`, as applied to the frame header field. -/
def objTypeFromBytes (objType : List Nat) : GoRes ObjectType :=
  if objType = ObjectType.Blob.nameBytes then .ok .Blob
  else if objType = ObjectType.Tree.nameBytes then .ok .Tree
  else if objType = ObjectType.Commit.nameBytes then .ok .Commit
  else .err

/-- The parsing part of `readObjectFile` (after zlib decompression): locate
the first NUL (`bytes.IndexByte`, modelled with `takeWhile`), split the
header on spaces, require exactly two fields, decode the kind and the
decimal size, and return the rest as content.  As in the source, the size
field is not compared with the content length. -/
def parseObjectData (data : List Nat) : GoRes (ObjectType × Int × List Nat) :=
  if (data.takeWhile (fun b => b ≠ 0)).length = data.length then .err
  else
    if (splitBytes 32 (data.takeWhile (fun b => b ≠ 0))).length ≠ 2 then .err
    else
      match objTypeFromBytes ((splitBytes 32 (data.takeWhile (fun b => b ≠ 0))).headD []) with
      | .ok headerObjType =>
        match atoiGoBytes ((splitBytes 32 (data.takeWhile (fun b => b ≠ 0))).getD 1 []) with
        | .ok sizeBytes =>
            .ok (headerObjType, sizeBytes, data.drop ((data.takeWhile (fun b => b ≠ 0)).length + 1))
        | .err => .err
        | .panic => .panic
        | .spin => .spin
      | .err => .err
      | .panic => .panic
      | .spin => .spin

/-- `.git/objects/<aa>/<rest>` path derived from a hash, prefixed by
`repoDir` exactly as the source concatenates it. -/
def objectFilePath (repoDir objHash : String) : String :=
  repoDir ++ ".git/objects/" ++ String.mk (objHash.toList.take 2) ++ "/"
    ++ String.mk (objHash.toList.drop 2)

/-- `createObjectFile`: frame the payload, hash the frame (abstract `sha1`),
and write the zlib-compressed frame (abstract `deflate`) at the two-level
path.  Returns (hash, path, written bytes), making the write effect
explicit. -/
def createObjectFile (sha1 : List Nat → String) (deflate : List Nat → List Nat)
    (repoDir : String) (objType : ObjectType) (contentBytes : List Nat) :
    String × String × List Nat :=
  (sha1 (objectFileBytes objType contentBytes),
   objectFilePath repoDir (sha1 (objectFileBytes objType contentBytes)),
   deflate (objectFileBytes objType contentBytes))

/-- `readObjectFile`: open the path derived from the hash (the filesystem
is the abstract map `fs`; a missing file is the "failed to open object
file" error), decompress, and parse the frame. -/
def readObjectFile (inflate : List Nat → GoRes (List Nat))
    (fs : String → Option (List Nat)) (objHash repoDir : String) :
    GoRes (ObjectType × Int × List Nat) :=
  match fs (objectFilePath repoDir objHash) with
  | none => .err
  | some fileData =>
    match inflate fileData with
    | .ok data => parseObjectData data
    | .err => .err
    | .panic => .panic
    | .spin => .spin

/-! ### Frame round-trip lemmas -/

lemma decDigitsVal_append (A B : List Nat) (acc : Nat) :
    decDigitsVal (A ++ B) acc =
      match decDigitsVal A acc with
      | .ok v => decDigitsVal B v
      | .err => .err
      | .panic => .panic
      | .spin => .spin := by
  induction A generalizing acc with
  | nil => simp [decDigitsVal]
  | cons b rest ih =>
    simp only [List.cons_append, decDigitsVal, List.append_eq]
    by_cases hb : 48 ≤ b ∧ b ≤ 57
    · rw [if_pos hb, if_pos hb, ih]
    · rw [if_neg hb, if_neg hb]

lemma natDecimalDigitsAux_spec :
    ∀ n fuel acc, n < fuel →
      natDecimalDigitsAux fuel n ≠ [] ∧
      (∀ b ∈ natDecimalDigitsAux fuel n, 48 ≤ b ∧ b ≤ 57) ∧
      decDigitsVal (natDecimalDigitsAux fuel n) acc
        = .ok (acc * 10 ^ (natDecimalDigitsAux fuel n).length + n) := by
  intro n
  induction n using Nat.strong_induction_on with
  | _ n ih =>
    intro fuel acc hfuel
    match fuel with
    | 0 => omega
    | f + 1 =>
      by_cases h10 : n < 10
      · rw [natDecimalDigitsAux, if_pos h10]
        refine ⟨by simp, by intro b hb; simp at hb; omega, ?_⟩
        simp only [decDigitsVal]
        rw [if_pos (by omega)]
        simp
      · rw [natDecimalDigitsAux, if_neg h10]
        have hdivlt : n / 10 < n := Nat.div_lt_self (by omega) (by norm_num)
        have hdivf : n / 10 < f := by omega
        obtain ⟨hne, hdig, hval⟩ := ih (n / 10) hdivlt f acc hdivf
        refine ⟨by simp, ?_, ?_⟩
        · intro b hb
          rw [List.mem_append] at hb
          rcases hb with hb | hb
          · exact hdig b hb
          · simp at hb
            omega
        · rw [decDigitsVal_append, hval]
          simp only [decDigitsVal]
          rw [if_pos (by omega)]
          simp only [List.length_append, List.length_cons, List.length_nil]
          have harg : 48 + n % 10 - 48 = n % 10 := by omega
          rw [harg, pow_succ]
          have hcalc :
              (acc * 10 ^ (natDecimalDigitsAux f (n / 10)).length + n / 10) * 10 + n % 10
                = acc * (10 ^ (natDecimalDigitsAux f (n / 10)).length * 10) + n := by
            have hdm := Nat.div_add_mod n 10
            calc (acc * 10 ^ (natDecimalDigitsAux f (n / 10)).length + n / 10) * 10 + n % 10
                = acc * (10 ^ (natDecimalDigitsAux f (n / 10)).length * 10)
                    + (10 * (n / 10) + n % 10) := by ring
              _ = _ := by rw [hdm]
          rw [hcalc]

/-- `strconv.Atoi` inverts the decimal printer. -/
lemma atoi_natDecimalDigits (n : Nat) : atoiGoBytes (natDecimalDigits n) = .ok (n : Int) := by
  obtain ⟨hne, hdig, hval⟩ := natDecimalDigitsAux_spec n (n + 1) 0 (by omega)
  rw [natDecimalDigits] at *
  cases hD : natDecimalDigitsAux (n + 1) n with
  | nil => exact absurd hD hne
  | cons d tl =>
    rw [hD] at hdig hval
    have hd : 48 ≤ d ∧ d ≤ 57 := hdig d (by simp)
    simp only [atoiGoBytes]
    rw [if_neg (by omega), if_neg (by omega), hval]
    simp

/-- Every byte the decimal printer emits is a digit (in particular neither
NUL nor a space). -/
lemma natDecimalDigits_digits (n : Nat) :
    ∀ b ∈ natDecimalDigits n, 48 ≤ b ∧ b ≤ 57 :=
  (natDecimalDigitsAux_spec n (n + 1) 0 (by omega)).2.1

lemma takeWhile_append_all (p : Nat → Bool) (A B : List Nat)
    (hA : ∀ b ∈ A, p b = true) :
    (A ++ B).takeWhile p = A ++ B.takeWhile p := by
  induction A with
  | nil => simp
  | cons a A2 ih =>
    rw [List.cons_append, List.takeWhile_cons, hA a (by simp)]
    rw [ih fun b hb => hA b (by simp [hb])]
    simp

lemma splitBytes_ne_nil (sep : Nat) (l : List Nat) : splitBytes sep l ≠ [] := by
  cases l with
  | nil => simp [splitBytes]
  | cons b rest =>
    rw [splitBytes]
    cases splitBytes sep rest with
    | nil => simp
    | cons g gs =>
      by_cases hb : b = sep
      · simp [hb]
      · simp [hb]

lemma splitBytes_no_sep (sep : Nat) :
    ∀ l : List Nat, (∀ b ∈ l, b ≠ sep) → splitBytes sep l = [l] := by
  intro l
  induction l with
  | nil => intro _; rfl
  | cons b rest ih =>
    intro hl
    rw [splitBytes, ih fun x hx => hl x (by simp [hx])]
    simp [hl b (by simp)]

lemma splitBytes_sep_append (sep : Nat) :
    ∀ A B : List Nat, (∀ b ∈ A, b ≠ sep) →
      splitBytes sep (A ++ sep :: B) = A :: splitBytes sep B := by
  intro A
  induction A with
  | nil =>
    intro B _
    rw [List.nil_append, splitBytes]
    cases hB : splitBytes sep B with
    | nil => exact absurd hB (splitBytes_ne_nil sep B)
    | cons g gs => simp
  | cons a A2 ih =>
    intro B hA
    rw [List.cons_append, splitBytes, ih B fun x hx => hA x (by simp [hx])]
    simp [hA a (by simp)]

lemma nameBytes_no_nul_space (t : ObjectType) : ∀ b ∈ t.nameBytes, b ≠ 0 ∧ b ≠ 32 := by
  cases t <;> decide

lemma objTypeFromBytes_nameBytes (t : ObjectType) : objTypeFromBytes t.nameBytes = .ok t := by
  cases t <;> rfl

/-- Parsing the canonical frame returns exactly the kind, the printed
(decimal) size, and the payload. -/
lemma parseObjectData_frame (t : ObjectType) (c : List Nat) :
    parseObjectData (objectFileBytes t c) = .ok (t, (c.length : Int), c) := by
  have hname := nameBytes_no_nul_space t
  have hdigD : ∀ b ∈ natDecimalDigits c.length, 48 ≤ b ∧ b ≤ 57 :=
    natDecimalDigits_digits c.length
  have hframe : objectFileBytes t c
      = (t.nameBytes ++ 32 :: natDecimalDigits c.length) ++ 0 :: c := by
    simp [objectFileBytes]
  have hallA : ∀ b ∈ t.nameBytes ++ 32 :: natDecimalDigits c.length,
      (fun b => decide (b ≠ 0)) b = true := by
    intro b hb
    rw [List.mem_append] at hb
    simp only [decide_eq_true_eq]
    rcases hb with hb | hb
    · exact (hname b hb).1
    · rcases List.mem_cons.mp hb with rfl | hb
      · omega
      · have := hdigD b hb
        omega
  have htw : (objectFileBytes t c).takeWhile (fun b => b ≠ 0)
      = t.nameBytes ++ 32 :: natDecimalDigits c.length := by
    rw [hframe, takeWhile_append_all _ _ _ hallA]
    simp [List.takeWhile_cons]
  have hsplit : splitBytes 32 (t.nameBytes ++ 32 :: natDecimalDigits c.length)
      = [t.nameBytes, natDecimalDigits c.length] := by
    rw [splitBytes_sep_append 32 t.nameBytes _ (fun b hb => (hname b hb).2),
      splitBytes_no_sep 32 _ (fun b hb => by have := hdigD b hb; omega)]
  have hdrop : (objectFileBytes t c).drop
        ((t.nameBytes ++ 32 :: natDecimalDigits c.length).length + 1) = c := by
    rw [hframe]
    have hre : (t.nameBytes ++ 32 :: natDecimalDigits c.length) ++ 0 :: c
        = ((t.nameBytes ++ 32 :: natDecimalDigits c.length) ++ [0]) ++ c := by
      simp
    rw [hre]
    have hlen : ((t.nameBytes ++ 32 :: natDecimalDigits c.length) ++ [0]).length
        = (t.nameBytes ++ 32 :: natDecimalDigits c.length).length + 1 := by
      simp
      omega
    rw [← hlen, List.drop_left]
  rw [parseObjectData, htw]
  rw [if_neg (by rw [hframe]; simp)]
  rw [hsplit]
  rw [if_neg (by simp)]
  simp only [List.headD_cons, List.getD_cons_succ, List.getD_cons_zero,
    objTypeFromBytes_nameBytes, atoi_natDecimalDigits, hdrop]

/-- C5: object store round trip and idempotence: the address is the SHA-1
of the canonical frame `"<kind> <size>\0<payload>"`; reading a stored
object back yields its kind and payload, and re-writing the pair returned
by reading produces the same hash, the same `objects/<aa>/<rest>` path and
the same bytes. -/
theorem C5_object_store_roundtrip :
    ∀ (sha1 : List Nat → String) (deflate : List Nat → List Nat)
      (inflate : List Nat → GoRes (List Nat)) (repoDir : String)
      (objType : ObjectType) (contentBytes : List Nat),
      (∀ x, inflate (deflate x) = .ok x) →
      ∃ objHash objPath written,
        createObjectFile sha1 deflate repoDir objType contentBytes
          = (objHash, objPath, written) ∧
        objHash = sha1 (objectFileBytes objType contentBytes) ∧
        objPath = objectFilePath repoDir objHash ∧
        readObjectFile inflate (fun p => if p = objPath then some written else none)
            objHash repoDir
          = .ok (objType, (contentBytes.length : Int), contentBytes) ∧
        (∀ t2 s2 c2,
          readObjectFile inflate (fun p => if p = objPath then some written else none)
              objHash repoDir
            = .ok (t2, s2, c2) →
          createObjectFile sha1 deflate repoDir t2 c2 = (objHash, objPath, written)) := by
  intro sha1 deflate inflate repoDir objType contentBytes hinv
  have hread : readObjectFile inflate
      (fun p => if p = objectFilePath repoDir (sha1 (objectFileBytes objType contentBytes))
        then some (deflate (objectFileBytes objType contentBytes)) else none)
      (sha1 (objectFileBytes objType contentBytes)) repoDir
      = .ok (objType, (contentBytes.length : Int), contentBytes) := by
    simp only [readObjectFile, eq_self_iff_true, if_true]
    rw [hinv (objectFileBytes objType contentBytes)]
    exact parseObjectData_frame objType contentBytes
  refine ⟨sha1 (objectFileBytes objType contentBytes),
    objectFilePath repoDir (sha1 (objectFileBytes objType contentBytes)),
    deflate (objectFileBytes objType contentBytes), rfl, rfl, rfl, hread, ?_⟩
  intro t2 s2 c2 hr2
  rw [hread] at hr2
  cases hr2
  rfl

/-- Witness for C5 with an identity compressor, a constant hash function,
blob kind and payload "hi". -/
theorem C5_object_store_roundtrip_witness :
    ∃ objHash objPath written,
      createObjectFile (fun _ => "abcd") (fun x => x) "" .Blob [104, 105]
        = (objHash, objPath, written) ∧
      objHash = (fun _ => "abcd") (objectFileBytes .Blob [104, 105]) ∧
      objPath = objectFilePath "" objHash ∧
      readObjectFile (fun l => .ok l) (fun p => if p = objPath then some written else none)
          objHash ""
        = .ok (.Blob, (([104, 105] : List Nat).length : Int), [104, 105]) ∧
      (∀ t2 s2 c2,
        readObjectFile (fun l => .ok l) (fun p => if p = objPath then some written else none)
            objHash ""
          = .ok (t2, s2, c2) →
        createObjectFile (fun _ => "abcd") (fun x => x) "" t2 c2
          = (objHash, objPath, written)) :=
  C5_object_store_roundtrip (fun _ => "abcd") (fun x => x) (fun l => .ok l) ""
    .Blob [104, 105] (fun _ => rfl)

/-! ## Commit user parsing (objects.go `parseCommitUser`) -/

structure CommitUser where
  name : List Nat
  email : List Nat
  dateSeconds : Int
  timezone : List Nat
  deriving DecidableEq, Repr

/-- `parseCommitUser` from the source: split the whole line on spaces and
pick fixed indices — `Atoi(parts[4])` first, then the composite literal's
fields in order: `name = parts[1] + " " + parts[2]`,
`email = parts[3][1:len-1]` (a Go slice-bounds panic when `parts[3]` is
shorter than 2 bytes), the parsed seconds, and `timezone = parts[5]`.
Out-of-range index accesses are Go panics. -/
def parseCommitUser (s : List Nat) : GoRes CommitUser :=
  match (splitBytes 32 s).get? 4 with
  | none => .panic
  | some p4 =>
    match atoiGoBytes p4 with
    | .ok dateSeconds =>
      match (splitBytes 32 s).get? 1 with
      | none => .panic
      | some p1 =>
        match (splitBytes 32 s).get? 2 with
        | none => .panic
        | some p2 =>
          match (splitBytes 32 s).get? 3 with
          | none => .panic
          | some p3 =>
            if p3.length < 2 then .panic
            else
              match (splitBytes 32 s).get? 5 with
              | none => .panic
              | some p5 =>
                .ok { name := p1 ++ [32] ++ p2, email := (p3.drop 1).dropLast,
                      dateSeconds := dateSeconds, timezone := p5 }
    | .err => .err
    | .panic => .panic
    | .spin => .spin

/-- C9 (evaluation at the failing inputs): `parseCommitUser` does not parse
author lines by the angle-bracket delimiters; it splits on spaces with
fixed indices.  On a one-word name (`author Madonna <madonna@example.com>
1700000000 +0000`) it panics (`parts[5]` is out of range after `Atoi`
accepted the timezone "+0000" as `parts[4]`), and on a three-word name
(`author John von Neumann <jvn@example.com> 1700000000 +0000`) it returns
an error (`Atoi("<jvn@example.com>")`), instead of returning the name,
email, seconds and timezone as the claim states. -/
theorem C9_parseCommitUser_fixed_indices :
    parseCommitUser [97, 117, 116, 104, 111, 114, 32, 77, 97, 100, 111, 110, 110, 97, 32, 60, 109, 97, 100, 111, 110, 110, 97, 64, 101, 120, 97, 109, 112, 108, 101, 46, 99, 111, 109, 62, 32, 49, 55, 48, 48, 48, 48, 48, 48, 48, 48, 32, 43, 48, 48, 48, 48] = .panic ∧
    parseCommitUser [97, 117, 116, 104, 111, 114, 32, 74, 111, 104, 110, 32, 118, 111, 110, 32, 78, 101, 117, 109, 97, 110, 110, 32, 60, 106, 118, 110, 64, 101, 120, 97, 109, 112, 108, 101, 46, 99, 111, 109, 62, 32, 49, 55, 48, 48, 48, 48, 48, 48, 48, 48, 32, 43, 48, 48, 48, 48] = .err := by
  decide

/-! ## The staging index (`writeIndex` / `ReadIndex`) -/

/-- An index entry; stat fields are uint32 values, `sha1` is the 20-byte
raw hash, `path` the NUL-terminated path's bytes. -/
structure IndexEntry where
  cTimeSec : Nat
  cTimeNanoSec : Nat
  mTimeSec : Nat
  mTimeNanoSec : Nat
  dev : Nat
  ino : Nat
  mode : Nat
  uid : Nat
  gid : Nat
  fileSize : Nat
  sha1 : List Nat
  flags : Nat
  path : List Nat
  deriving DecidableEq, Repr

/-- `binary.BigEndian` serialization of a uint32 / uint16. -/
def be32 (n : Nat) : List Nat :=
  [(n >>> 24) &&& 255, (n >>> 16) &&& 255, (n >>> 8) &&& 255, n &&& 255]

def be16 (n : Nat) : List Nat := [(n >>> 8) &&& 255, n &&& 255]

/-- The 62-byte fixed prefix plus NUL-terminated path written per entry by
`writeIndex`. -/
def indexEntryBytes (e : IndexEntry) : List Nat :=
  be32 e.cTimeSec ++ be32 e.cTimeNanoSec ++ be32 e.mTimeSec ++ be32 e.mTimeNanoSec ++
  be32 e.dev ++ be32 e.ino ++ be32 e.mode ++ be32 e.uid ++ be32 e.gid ++ be32 e.fileSize ++
  e.sha1 ++ be16 e.flags ++ e.path ++ [0]

/-- Go's `<` on strings: bytewise lexicographic comparison. -/
def ltBytes : List Nat → List Nat → Bool
  | [], [] => false
  | [], _ :: _ => true
  | _ :: _, [] => false
  | a :: as, b :: bs => if a < b then true else if b < a then false else ltBytes as bs

/-- Insertion step of the path sort; `sort.Slice` with
`entries[i].path < entries[j].path` is modelled by insertion sort with the
same comparator (any correct sort produces a path-sorted permutation). -/
def insertByPath (e : IndexEntry) : List IndexEntry → List IndexEntry
  | [] => [e]
  | x :: xs => if ltBytes e.path x.path then e :: x :: xs else x :: insertByPath e xs

def sortIndexEntries (l : List IndexEntry) : List IndexEntry := l.foldr insertByPath []

/-- The checksummed part of the index file: `DIRC`, version 2, entry
count, then the sorted entries. -/
def indexBodyBytes (entries : List IndexEntry) : List Nat :=
  [68, 73, 82, 67] ++ be32 2 ++ be32 entries.length
    ++ ((sortIndexEntries entries).map indexEntryBytes).join

/-- The bytes `writeIndex` writes: the body followed by its SHA-1
(abstract 20-byte `sha1`). -/
def writeIndexBytes (sha1 : List Nat → List Nat) (entries : List IndexEntry) : List Nat :=
  indexBodyBytes entries ++ sha1 (indexBodyBytes entries)

/-- `verifyIndexChecksum`: the trailing 20 bytes must be the SHA-1 of
everything before them. -/
def verifyIndexChecksum (sha1 : List Nat → List Nat) (index : List Nat) : GoRes Unit :=
  if index.length < 20 then .err
  else if index.drop (index.length - 20) ≠ sha1 (index.take (index.length - 20)) then .err
  else .ok ()

def getBE32 (l : List Nat) (i : Nat) : Nat :=
  ((l.getD i 0) <<< 24) ||| ((l.getD (i + 1) 0) <<< 16) ||| ((l.getD (i + 2) 0) <<< 8)
    ||| l.getD (i + 3) 0

def getBE16 (l : List Nat) (i : Nat) : Nat := ((l.getD i 0) <<< 8) ||| l.getD (i + 1) 0

/-- `readIndexHeader`: signature `DIRC`, version 2, entry count. -/
def readIndexHeader (index : List Nat) : GoRes Nat :=
  if index.length < 12 then .err
  else if index.take 4 ≠ [68, 73, 82, 67] then .err
  else if getBE32 index 4 ≠ 2 then .err
  else .ok (getBE32 index 8)

/-- `readIndexEntry`: 62-byte fixed prefix, then the path up to the next
NUL (or the end of the buffer); returns the entry and the position just
past the NUL. -/
def readIndexEntry (index : List Nat) (i : Nat) : GoRes (IndexEntry × Nat) :=
  if i + 62 > index.length then .err
  else
    .ok ({ cTimeSec := getBE32 index i, cTimeNanoSec := getBE32 index (i + 4),
           mTimeSec := getBE32 index (i + 8), mTimeNanoSec := getBE32 index (i + 12),
           dev := getBE32 index (i + 16), ino := getBE32 index (i + 20),
           mode := getBE32 index (i + 24), uid := getBE32 index (i + 28),
           gid := getBE32 index (i + 32), fileSize := getBE32 index (i + 36),
           sha1 := (index.drop (i + 40)).take 20, flags := getBE16 index (i + 60),
           path := (index.drop (i + 62)).takeWhile (fun b => b ≠ 0) },
         i + 62 + ((index.drop (i + 62)).takeWhile (fun b => b ≠ 0)).length + 1)

/-- The `for range numEntries` loop of `readIndexEntries`. -/
def readIndexEntriesLoop (index : List Nat) : Nat → Nat → GoRes (List IndexEntry × Nat)
  | 0, i => .ok ([], i)
  | n + 1, i =>
    match readIndexEntry index i with
    | .ok (entry, i2) =>
      match readIndexEntriesLoop index n i2 with
      | .ok (entries, i3) => .ok (entry :: entries, i3)
      | .err => .err
      | .panic => .panic
      | .spin => .spin
    | .err => .err
    | .panic => .panic
    | .spin => .spin

/-- `readIndexEntries`, including the trailing "leftover data" check. -/
def readIndexEntries (index : List Nat) (i numEntries : Nat) : GoRes (List IndexEntry) :=
  match readIndexEntriesLoop index numEntries i with
  | .ok (entries, iEnd) => if iEnd ≠ index.length then .err else .ok entries
  | .err => .err
  | .panic => .panic
  | .spin => .spin

/-- `ReadIndex`: a missing `.git/index` file (the `os.IsNotExist` branch)
yields an empty entry list and no error; otherwise verify the checksum,
strip it, and parse header and entries.  The filesystem is the abstract
map `fs`; `filepath.Join(repoDir, ".git", "index")` is the concatenated
path. -/
def ReadIndex (sha1 : List Nat → List Nat) (fs : String → Option (List Nat))
    (repoDir : String) : GoRes (List IndexEntry) :=
  match fs (repoDir ++ "/.git/index") with
  | none => .ok []
  | some index =>
    match verifyIndexChecksum sha1 index with
    | .ok _ =>
      match readIndexHeader (index.take (index.length - 20)) with
      | .ok numEntries => readIndexEntries (index.take (index.length - 20)) 12 numEntries
      | .err => .err
      | .panic => .panic
      | .spin => .spin
    | .err => .err
    | .panic => .panic
    | .spin => .spin

/-! ### Path-order lemmas for the index sort -/

lemma ltBytes_asymm : ∀ a b, ltBytes a b = true → ltBytes b a = false := by
  intro a
  induction a with
  | nil =>
    intro b h
    cases b with
    | nil => simp [ltBytes] at h
    | cons y ys => simp [ltBytes]
  | cons x xs ih =>
    intro b h
    cases b with
    | nil => simp [ltBytes] at h
    | cons y ys =>
      rw [ltBytes] at h
      rw [ltBytes]
      by_cases hxy : x < y
      · rw [if_neg (by omega), if_pos hxy]
      · rw [if_neg hxy] at h
        by_cases hyx : y < x
        · rw [if_pos hyx] at h
          exact absurd h (by simp)
        · rw [if_neg hyx] at h
          rw [if_neg hyx, if_neg hxy]
          exact ih ys h

lemma ltBytes_trans : ∀ a b c, ltBytes a b = true → ltBytes b c = true → ltBytes a c = true := by
  intro a
  induction a with
  | nil =>
    intro b c hab hbc
    cases b with
    | nil => simp [ltBytes] at hab
    | cons y ys =>
      cases c with
      | nil => simp [ltBytes] at hbc
      | cons z zs => simp [ltBytes]
  | cons x xs ih =>
    intro b c hab hbc
    cases b with
    | nil => simp [ltBytes] at hab
    | cons y ys =>
      cases c with
      | nil => simp [ltBytes] at hbc
      | cons z zs =>
        rw [ltBytes] at hab hbc
        rw [ltBytes]
        by_cases hxy : x < y
        · by_cases hyz : y < z
          · rw [if_pos (by omega)]
          · by_cases hzy : z < y
            · rw [if_neg hyz, if_pos hzy] at hbc
              exact absurd hbc (by simp)
            · rw [if_pos (by omega)]
        · by_cases hyx : y < x
          · rw [if_neg hxy, if_pos hyx] at hab
            exact absurd hab (by simp)
          · rw [if_neg hxy, if_neg hyx] at hab
            by_cases hyz : y < z
            · rw [if_pos (by omega)]
            · by_cases hzy : z < y
              · rw [if_neg hyz, if_pos hzy] at hbc
                exact absurd hbc (by simp)
              · rw [if_neg hyz, if_neg hzy] at hbc
                rw [if_neg (by omega), if_neg (by omega)]
                exact ih ys zs hab hbc

lemma mem_insertByPath (e y : IndexEntry) :
    ∀ l, y ∈ insertByPath e l → y = e ∨ y ∈ l := by
  intro l
  induction l with
  | nil =>
    intro hy
    simp [insertByPath] at hy
    exact Or.inl hy
  | cons x xs ih =>
    intro hy
    rw [insertByPath] at hy
    by_cases hcmp : ltBytes e.path x.path = true
    · rw [if_pos hcmp] at hy
      rcases List.mem_cons.mp hy with rfl | hy
      · exact Or.inl rfl
      · exact Or.inr hy
    · rw [if_neg hcmp] at hy
      rcases List.mem_cons.mp hy with rfl | hy
      · exact Or.inr (by simp)
      · rcases ih hy with h | h
        · exact Or.inl h
        · exact Or.inr (by simp [h])

lemma pairwise_insertByPath (e : IndexEntry) :
    ∀ l, List.Pairwise (fun a b => ltBytes b.path a.path = false) l →
      List.Pairwise (fun a b => ltBytes b.path a.path = false) (insertByPath e l) := by
  intro l
  induction l with
  | nil =>
    intro _
    simp [insertByPath]
  | cons x xs ih =>
    intro hl
    rw [List.pairwise_cons] at hl
    obtain ⟨hx, hxs⟩ := hl
    rw [insertByPath]
    by_cases hcmp : ltBytes e.path x.path = true
    · rw [if_pos hcmp, List.pairwise_cons]
      constructor
      · intro y hy
        rcases List.mem_cons.mp hy with rfl | hy
        · exact ltBytes_asymm _ _ hcmp
        · cases hcase : ltBytes y.path e.path
          · rfl
          · have := ltBytes_trans _ _ _ hcase hcmp
            rw [hx y hy] at this
            exact absurd this (by simp)
      · rw [List.pairwise_cons]
        exact ⟨hx, hxs⟩
    · rw [if_neg hcmp, List.pairwise_cons]
      constructor
      · intro y hy
        rcases mem_insertByPath e y xs hy with rfl | hy2
        · cases hcase : ltBytes y.path x.path
          · rfl
          · exact absurd hcase hcmp
        · exact hx y hy2
      · exact ih hxs

/-- The index writer's sort really sorts by path. -/
lemma sortIndexEntries_pairwise (l : List IndexEntry) :
    List.Pairwise (fun a b => ltBytes b.path a.path = false) (sortIndexEntries l) := by
  induction l with
  | nil => simp [sortIndexEntries]
  | cons x xs ih => exact pairwise_insertByPath x (sortIndexEntries xs) ih

/-- C7: every index file produced by `writeIndex` begins with `DIRC`, a
version word 2 and the entry count, lists its entries sorted by path, and
ends with the SHA-1 of all preceding bytes; and `ReadIndex` rejects any
index file whose trailing 20 bytes differ from the SHA-1 of the bytes
before them. -/
theorem C7_index_format_and_checksum :
    (∀ (sha1 : List Nat → List Nat) (entries : List IndexEntry),
      ∃ tail, writeIndexBytes sha1 entries
        = [68, 73, 82, 67] ++ be32 2 ++ be32 entries.length ++ tail) ∧
    (∀ entries : List IndexEntry,
      List.Pairwise (fun a b => ltBytes b.path a.path = false) (sortIndexEntries entries)) ∧
    (∀ (sha1 : List Nat → List Nat) (entries : List IndexEntry),
      (sha1 (indexBodyBytes entries)).length = 20 →
      (writeIndexBytes sha1 entries).drop ((writeIndexBytes sha1 entries).length - 20)
        = sha1 ((writeIndexBytes sha1 entries).take
            ((writeIndexBytes sha1 entries).length - 20))) ∧
    (∀ (sha1 : List Nat → List Nat) (fs : String → Option (List Nat)) (repoDir : String)
        (idx : List Nat),
      fs (repoDir ++ "/.git/index") = some idx → 20 ≤ idx.length →
      idx.drop (idx.length - 20) ≠ sha1 (idx.take (idx.length - 20)) →
      ReadIndex sha1 fs repoDir = .err) := by
  refine ⟨?_, fun entries => sortIndexEntries_pairwise entries, ?_, ?_⟩
  · intro sha1 entries
    refine ⟨((sortIndexEntries entries).map indexEntryBytes).join
      ++ sha1 (indexBodyBytes entries), ?_⟩
    simp [writeIndexBytes, indexBodyBytes]
  · intro sha1 entries hlen
    rw [writeIndexBytes]
    have hL : (indexBodyBytes entries ++ sha1 (indexBodyBytes entries)).length - 20
        = (indexBodyBytes entries).length := by
      rw [List.length_append, hlen]
      omega
    rw [hL, List.drop_left, List.take_left]
  · intro sha1 fs repoDir idx hfs hlen hne
    have hv : verifyIndexChecksum sha1 idx = .err := by
      rw [verifyIndexChecksum, if_neg (by omega), if_pos hne]
    simp only [ReadIndex, hfs, hv]

/-- Witness for C7: the empty entry list with a constant 20-byte hash, and
a 20-byte all-ones index whose checksum does not match. -/
theorem C7_index_format_and_checksum_witness :
    (∃ tail, writeIndexBytes (fun _ => List.replicate 20 0) []
      = [68, 73, 82, 67] ++ be32 2 ++ be32 ([] : List IndexEntry).length ++ tail) ∧
    List.Pairwise (fun a b => ltBytes b.path a.path = false) (sortIndexEntries []) ∧
    ((writeIndexBytes (fun _ => List.replicate 20 0) []).drop
        ((writeIndexBytes (fun _ => List.replicate 20 0) []).length - 20)
      = (fun _ => List.replicate 20 0)
          ((writeIndexBytes (fun _ => List.replicate 20 0) []).take
            ((writeIndexBytes (fun _ => List.replicate 20 0) []).length - 20))) ∧
    ReadIndex (fun _ => List.replicate 20 0) (fun _ => some (List.replicate 20 1)) "" = .err :=
  ⟨C7_index_format_and_checksum.1 (fun _ => List.replicate 20 0) [],
   C7_index_format_and_checksum.2.1 [],
   C7_index_format_and_checksum.2.2.1 (fun _ => List.replicate 20 0) [] (by simp),
   C7_index_format_and_checksum.2.2.2 (fun _ => List.replicate 20 0)
     (fun _ => some (List.replicate 20 1)) "" (List.replicate 20 1) rfl (by simp) (by decide)⟩

/-- C10: if the repository has no index file at all, `ReadIndex` returns an
empty entry list and no error, so a brand-new repository reads as an empty
staging area. -/
theorem C10_ReadIndex_missing_file_empty :
    ∀ (sha1 : List Nat → List Nat) (fs : String → Option (List Nat)) (repoDir : String),
      fs (repoDir ++ "/.git/index") = none → ReadIndex sha1 fs repoDir = .ok [] := by
  intro sha1 fs repoDir h
  simp only [ReadIndex, h]

/-- Witness for C10 on the everywhere-empty filesystem. -/
theorem C10_ReadIndex_missing_file_empty_witness :
    ReadIndex (fun _ => List.replicate 20 0) (fun _ => none) "" = .ok [] :=
  C10_ReadIndex_missing_file_empty (fun _ => List.replicate 20 0) (fun _ => none) "" rfl

/-! ## Pkt-line framing (`createPktLine` / `readPktLine`) -/

/-- Lowercase hex digit character for a value below 16. -/
def hexDigitChar (d : Nat) : Nat := if d < 10 then 48 + d else 87 + d

/-- Hex digits of `n`, most significant first (fuel-structural as with the
decimal printer). -/
def natHexDigitsAux : Nat → Nat → List Nat
  | 0, _ => []
  | fuel + 1, n =>
      if n < 16 then [hexDigitChar n]
      else natHexDigitsAux fuel (n / 16) ++ [hexDigitChar (n % 16)]

def natHexDigits (n : Nat) : List Nat := natHexDigitsAux (n + 1) n

/-- `fmt.Sprintf("%04x", n)`: lowercase hex, zero-padded to a minimum
width of four characters (wider when the value needs more digits). -/
def sprintf04x (n : Nat) : List Nat :=
  List.replicate (4 - (natHexDigits n).length) 48 ++ natHexDigits n

/-- `createPktLine`: append a newline to payloads that lack one, then
prefix `%04x` of the payload length plus 4. -/
def createPktLine (content : List Nat) : List Nat :=
  sprintf04x ((if content.getLast? = some 10 then content else content ++ [10]).length + 4)
    ++ (if content.getLast? = some 10 then content else content ++ [10])

/-- Value of a hex digit character (upper or lower case), if any. -/
def hexDigitVal (b : Nat) : Option Nat :=
  if 48 ≤ b ∧ b ≤ 57 then some (b - 48)
  else if 97 ≤ b ∧ b ≤ 102 then some (b - 87)
  else if 65 ≤ b ∧ b ≤ 70 then some (b - 55)
  else none

def parseHexDigits : List Nat → Nat → GoRes Nat
  | [], acc => .ok acc
  | b :: rest, acc =>
    match hexDigitVal b with
    | some d => parseHexDigits rest (acc * 16 + d)
    | none => .err

/-- `strconv.ParseInt(s, 16, 64)`: optional sign, then one or more hex
digits.  (The int64 overflow error is not modelled; pkt-line lengths are
four characters.) -/
def parseIntHex (s : List Nat) : GoRes Int :=
  match s with
  | [] => .err
  | b :: rest =>
    if b = 43 then
      if rest = [] then .err
      else
        match parseHexDigits rest 0 with
        | .ok v => .ok (v : Int)
        | .err => .err
        | .panic => .panic
        | .spin => .spin
    else if b = 45 then
      if rest = [] then .err
      else
        match parseHexDigits rest 0 with
        | .ok v => .ok (-(v : Int))
        | .err => .err
        | .panic => .panic
        | .spin => .spin
    else
      match parseHexDigits (b :: rest) 0 with
      | .ok v => .ok (v : Int)
      | .err => .err
      | .panic => .panic
      | .spin => .spin

/-- `strings.TrimRight(s, "\r\n")`: strip every trailing CR or LF. -/
def trimRightCrLf (l : List Nat) : List Nat := l.rdropWhile (fun b => b == 13 || b == 10)

/-- `readPktLine` over a byte stream: read 4 length characters
(`io.ReadFull` error when fewer are available), parse them as hex, build a
buffer of `length - 4` bytes (a Go `make` panic when that is negative),
read that many payload bytes, and strip trailing CR/LF. -/
def readPktLine (stream : List Nat) : GoRes (List Nat) :=
  if stream.length < 4 then .err
  else
    match parseIntHex (stream.take 4) with
    | .ok length =>
      if length - 4 < 0 then .panic
      else if ((stream.drop 4).length : Int) < length - 4 then .err
      else .ok (trimRightCrLf ((stream.drop 4).take (length - 4).toNat))
    | .err => .err
    | .panic => .panic
    | .spin => .spin

lemma hexDigitVal_hexDigitChar (d : Nat) (hd : d < 16) : hexDigitVal (hexDigitChar d) = some d := by
  rw [hexDigitChar]
  by_cases h10 : d < 10
  · rw [if_pos h10, hexDigitVal, if_pos (by omega)]
    congr 1
    omega
  · rw [if_neg h10, hexDigitVal, if_neg (by omega), if_pos (by omega)]
    congr 1
    omega

lemma hexDigitChar_ge_48 (d : Nat) : 48 ≤ hexDigitChar d := by
  rw [hexDigitChar]
  split <;> omega

lemma parseHexDigits_append (A B : List Nat) (acc : Nat) :
    parseHexDigits (A ++ B) acc =
      match parseHexDigits A acc with
      | .ok v => parseHexDigits B v
      | .err => .err
      | .panic => .panic
      | .spin => .spin := by
  induction A generalizing acc with
  | nil => simp [parseHexDigits]
  | cons b rest ih =>
    simp only [List.cons_append, parseHexDigits, List.append_eq]
    cases hexDigitVal b with
    | some d => simp only []; rw [ih]
    | none => simp only []

lemma natHexDigitsAux_spec :
    ∀ n fuel acc, n < fuel →
      natHexDigitsAux fuel n ≠ [] ∧
      (∀ b ∈ natHexDigitsAux fuel n, 48 ≤ b) ∧
      parseHexDigits (natHexDigitsAux fuel n) acc
        = .ok (acc * 16 ^ (natHexDigitsAux fuel n).length + n) := by
  intro n
  induction n using Nat.strong_induction_on with
  | _ n ih =>
    intro fuel acc hfuel
    match fuel with
    | 0 => omega
    | f + 1 =>
      by_cases h16 : n < 16
      · rw [natHexDigitsAux, if_pos h16]
        refine ⟨by simp, ?_, ?_⟩
        · intro b hb
          simp at hb
          rw [hb]
          exact hexDigitChar_ge_48 n
        · simp only [parseHexDigits, hexDigitVal_hexDigitChar n h16]
          simp [parseHexDigits]
      · rw [natHexDigitsAux, if_neg h16]
        have hdivlt : n / 16 < n := Nat.div_lt_self (by omega) (by norm_num)
        have hdivf : n / 16 < f := by omega
        obtain ⟨hne, hdig, hval⟩ := ih (n / 16) hdivlt f acc hdivf
        refine ⟨by simp, ?_, ?_⟩
        · intro b hb
          rw [List.mem_append] at hb
          rcases hb with hb | hb
          · exact hdig b hb
          · simp at hb
            rw [hb]
            exact hexDigitChar_ge_48 (n % 16)
        · rw [parseHexDigits_append, hval]
          simp only [parseHexDigits, hexDigitVal_hexDigitChar (n % 16) (by omega)]
          simp only [parseHexDigits, List.length_append, List.length_cons, List.length_nil]
          rw [pow_succ]
          have hcalc :
              (acc * 16 ^ (natHexDigitsAux f (n / 16)).length + n / 16) * 16 + n % 16
                = acc * (16 ^ (natHexDigitsAux f (n / 16)).length * 16) + n := by
            have hdm := Nat.div_add_mod n 16
            calc (acc * 16 ^ (natHexDigitsAux f (n / 16)).length + n / 16) * 16 + n % 16
                = acc * (16 ^ (natHexDigitsAux f (n / 16)).length * 16)
                    + (16 * (n / 16) + n % 16) := by ring
              _ = _ := by rw [hdm]
          rw [hcalc]

lemma natHexDigitsAux_len_le :
    ∀ n fuel k, n < fuel → 1 ≤ k → n < 16 ^ k → (natHexDigitsAux fuel n).length ≤ k := by
  intro n
  induction n using Nat.strong_induction_on with
  | _ n ih =>
    intro fuel k hfuel hk hnk
    match fuel with
    | 0 => omega
    | f + 1 =>
      by_cases h16 : n < 16
      · rw [natHexDigitsAux, if_pos h16]
        simp
        omega
      · rw [natHexDigitsAux, if_neg h16]
        have hk2 : 2 ≤ k := by
          by_contra hlt
          have hk1 : k = 1 := by omega
          rw [hk1, pow_one] at hnk
          omega
        have hdivlt : n / 16 < n := Nat.div_lt_self (by omega) (by norm_num)
        have hsub : n / 16 < 16 ^ (k - 1) := by
          rw [Nat.div_lt_iff_lt_mul (by norm_num)]
          have : 16 ^ (k - 1) * 16 = 16 ^ k := by
            rw [← pow_succ]
            congr 1
            omega
          omega
        have := ih (n / 16) hdivlt f (k - 1) (by omega) (by omega) hsub
        simp
        omega

lemma parseHexDigits_zeros (k : Nat) (D : List Nat) :
    parseHexDigits (List.replicate k 48 ++ D) 0 = parseHexDigits D 0 := by
  induction k with
  | zero => simp
  | succ k ih =>
    rw [List.replicate_succ, List.cons_append]
    simp only [parseHexDigits, hexDigitVal]
    rw [if_pos (by omega)]
    simpa using ih

lemma sprintf04x_length (n : Nat) (hn : n < 65536) : (sprintf04x n).length = 4 := by
  have hle := natHexDigitsAux_len_le n (n + 1) 4 (by omega) (by omega) (by norm_num; omega)
  have hne := (natHexDigitsAux_spec n (n + 1) 0 (by omega)).1
  rw [sprintf04x, List.length_append, List.length_replicate]
  rw [natHexDigits] at *
  have : (natHexDigitsAux (n + 1) n).length ≠ 0 := by
    intro h0
    exact hne (List.length_eq_zero.mp h0)
  omega

lemma parseIntHex_sprintf04x (n : Nat) (hn : n < 65536) :
    parseIntHex (sprintf04x n) = .ok (n : Int) := by
  obtain ⟨hne, hdig, hval⟩ := natHexDigitsAux_spec n (n + 1) 0 (by omega)
  have hall : ∀ b ∈ sprintf04x n, 48 ≤ b := by
    intro b hb
    rw [sprintf04x, List.mem_append] at hb
    rcases hb with hb | hb
    · rw [List.eq_of_mem_replicate hb]
    · exact hdig b hb
  have hparse : parseHexDigits (sprintf04x n) 0 = .ok n := by
    rw [sprintf04x, natHexDigits, parseHexDigits_zeros, hval]
    simp
  cases hsp : sprintf04x n with
  | nil =>
    rw [sprintf04x] at hsp
    obtain ⟨-, h2⟩ := List.append_eq_nil.mp hsp
    rw [natHexDigits] at h2
    exact absurd h2 hne
  | cons b rest =>
    have hb48 : 48 ≤ b := hall b (by rw [hsp]; simp)
    rw [parseIntHex, if_neg (by omega), if_neg (by omega)]
    rw [← hsp, hparse]

/-- C8 (amended): pkt-line frame round trip for every payload that does
not end in CR or LF *and* whose frame length fits the four hex length
characters (`len(P) + 5 ≤ 0xffff`): reading the frame produced by the
writer returns the payload, with arbitrary following stream bytes. -/
theorem C8_pktline_roundtrip (P rest : List Nat)
    (hlast : ∀ x, P.getLast? = some x → x ≠ 10 ∧ x ≠ 13)
    (hbound : P.length + 5 ≤ 65535) :
    readPktLine (createPktLine P ++ rest) = .ok P := by
  have hc : (if P.getLast? = some 10 then P else P ++ [10]) = P ++ [10] := by
    cases hP : P.getLast? with
    | none => rw [if_neg (by simp [hP])]
    | some x =>
      have hx := hlast x hP
      rw [if_neg (fun hEq => hx.1 (Option.some.inj hEq))]
  rw [createPktLine, hc]
  have hn65536 : (P ++ [10]).length + 4 < 65536 := by simp; omega
  have hlen4 : (sprintf04x ((P ++ [10]).length + 4)).length = 4 :=
    sprintf04x_length _ hn65536
  rw [List.append_assoc, readPktLine]
  rw [if_neg (by rw [List.length_append, hlen4]; omega)]
  have htake : (sprintf04x ((P ++ [10]).length + 4) ++ ((P ++ [10]) ++ rest)).take 4
      = sprintf04x ((P ++ [10]).length + 4) := by
    rw [List.take_append_of_le_length (by rw [hlen4])]
    exact List.take_of_length_le (by rw [hlen4])
  have hdrop : (sprintf04x ((P ++ [10]).length + 4) ++ ((P ++ [10]) ++ rest)).drop 4
      = (P ++ [10]) ++ rest := by
    rw [List.drop_append_of_le_length (by rw [hlen4])]
    have h0 : (sprintf04x ((P ++ [10]).length + 4)).drop 4 = [] := by
      apply List.eq_nil_of_length_eq_zero
      rw [List.length_drop, hlen4]
    rw [h0, List.nil_append]
  rw [htake, hdrop, parseIntHex_sprintf04x _ hn65536]
  have htn : ((((P ++ [10]).length + 4 : Nat) : Int) - 4).toNat = (P ++ [10]).length := by
    omega
  have htrim : trimRightCrLf (P ++ [10]) = P := by
    rw [trimRightCrLf,
      List.rdropWhile_concat_pos (fun b => b == 13 || b == 10) P 10 (by decide)]
    rw [List.rdropWhile_eq_self_iff]
    intro hne
    have hlast2 := hlast (P.getLast hne) (List.getLast?_eq_getLast P hne)
    simp only [Bool.or_eq_true, beq_iff_eq]
    push_neg
    exact ⟨hlast2.2, hlast2.1⟩
  simp only []
  rw [if_neg (by push_cast; omega)]
  rw [if_neg (by simp only [List.length_append, List.length_cons, List.length_nil]; push_cast; omega)]
  rw [htn, List.take_left, htrim]

/-- Witness for C8 at payload "hi". -/
theorem C8_pktline_roundtrip_witness :
    readPktLine (createPktLine [104, 105] ++ []) = .ok [104, 105] :=
  C8_pktline_roundtrip [104, 105] [] (by decide) (by decide)

/-- C8 counterexample: for the 65531-byte payload of letters `a`, the frame
length 65536 does not fit four hex characters (`%04x` emits five), the
reader parses only the first four (`1000` = 4096) and returns a 4092-byte
payload beginning with the leftover `0`, so the round trip fails. -/
theorem C8_pktline_oversized_payload_fails :
    readPktLine (createPktLine (List.replicate 65531 97)) ≠ .ok (List.replicate 65531 97) := by
  have hlast : (List.replicate 65531 97 : List Nat).getLast? = some 97 := by
    rw [show (65531 : Nat) = 65530 + 1 from rfl, List.replicate_succ']
    exact List.getLast?_concat _
  have hc : (if (List.replicate 65531 97 : List Nat).getLast? = some 10
      then List.replicate 65531 97 else List.replicate 65531 97 ++ [10])
      = List.replicate 65531 97 ++ [10] := by
    rw [hlast]
    rw [if_neg (by decide)]
  rw [createPktLine, hc]
  have hlen : (List.replicate 65531 97 ++ [10] : List Nat).length + 4 = 65536 := by
    rw [List.length_append, List.length_replicate]
    norm_num
  rw [hlen]
  have hsp : sprintf04x 65536 = [49, 48, 48, 48, 48] := by rfl
  rw [hsp, readPktLine]
  rw [if_neg (by
    rw [List.length_append, List.length_append, List.length_replicate]
    norm_num)]
  have htake : (([49, 48, 48, 48, 48] : List Nat)
      ++ (List.replicate 65531 97 ++ [10])).take 4 = [49, 48, 48, 48] := by
    rw [List.take_append_of_le_length (by norm_num)]
    rfl
  rw [htake]
  have hparse : parseIntHex [49, 48, 48, 48] = .ok 4096 := by decide
  rw [hparse]
  simp only []
  rw [if_neg (by decide)]
  have hdrop : (([49, 48, 48, 48, 48] : List Nat)
      ++ (List.replicate 65531 97 ++ [10])).drop 4
      = 48 :: (List.replicate 65531 97 ++ [10]) := by
    rw [List.drop_append_of_le_length (by norm_num)]
    rfl
  rw [hdrop]
  rw [if_neg (by
    rw [List.length_cons, List.length_append, List.length_replicate]
    norm_num)]
  have htn : ((4096 : Int) - 4).toNat = 4092 := by decide
  rw [htn]
  have htk : (48 :: (List.replicate 65531 97 ++ [10]) : List Nat).take 4092
      = 48 :: List.replicate 4091 97 := by
    rw [show (4092 : Nat) = 4091 + 1 from rfl, List.take_succ_cons]
    rw [List.take_append_of_le_length (by rw [List.length_replicate]; norm_num)]
    rw [List.take_replicate]
    rw [show min (4091 : Nat) 65531 = 4091 from by omega]
  rw [htk]
  have hsplit : (48 :: List.replicate 4091 97 : List Nat)
      = (48 :: List.replicate 4090 97) ++ [97] := by
    rw [show (4091 : Nat) = 4090 + 1 from rfl, List.replicate_succ', List.cons_append]
  have htrim : trimRightCrLf (48 :: List.replicate 4091 97) = 48 :: List.replicate 4091 97 := by
    rw [trimRightCrLf, hsplit,
      List.rdropWhile_concat_neg (fun b => b == 13 || b == 10) (48 :: List.replicate 4090 97)
        97 (by decide), ← hsplit]
  rw [htrim]
  intro heq
  have h := GoRes.ok.inj heq
  have hlens := congrArg List.length h
  rw [List.length_cons, List.length_replicate, List.length_replicate] at hlens
  omega
end GitGo
